import Mathlib

/-!
Verification development for the QR Generator batch-generation engine.

Each definition below is a shallow embedding of a function of the
repository (`src/qr_core.py`, `src/validation.py`, `src/mode_handlers.py`,
`src/file_utils.py`); the doc comment of each definition names the source
function and lines it embeds.  Machine integers of the source are modelled
as `Nat`; Python strings as `String` over their character lists (the
source only ever manipulates ASCII data in the claims at issue, so
`Char.isAlphanum`, `Char.toLower`, `Char.toUpper` model the Python
character predicates); fallible code returns an explicit result type.
-/

/-! ### Error-correction level resolution (`src/validation.py`, lines 141-149) -/

/-- Constant `qrcode.constants.ERROR_CORRECT_M` of the encoder library. -/
def ERROR_CORRECT_M : Nat := 0

/-- Constant `qrcode.constants.ERROR_CORRECT_L` of the encoder library. -/
def ERROR_CORRECT_L : Nat := 1

/-- Constant `qrcode.constants.ERROR_CORRECT_H` of the encoder library. -/
def ERROR_CORRECT_H : Nat := 2

/-- Constant `qrcode.constants.ERROR_CORRECT_Q` of the encoder library. -/
def ERROR_CORRECT_Q : Nat := 3

/-- Embeds `get_error_correction_level` (`src/validation.py` lines 141-149):
a four-entry dictionary lookup on `level_str.upper()` with default
`ERROR_CORRECT_L`; the dictionary keys are distinct, so the lookup is the
chain of equality tests below, and `str.upper()` is the characterwise
ASCII uppercase map on the character list. -/
def get_error_correction_level (level_str : String) : Nat :=
  let u := String.mk (level_str.data.map Char.toUpper)
  if u = "L" then ERROR_CORRECT_L
  else if u = "M" then ERROR_CORRECT_M
  else if u = "Q" then ERROR_CORRECT_Q
  else if u = "H" then ERROR_CORRECT_H
  else ERROR_CORRECT_L

/-! ### Date validation (`src/validation.py`, lines 24-43) -/

/-- Result type of `validate_date_format`: the source returns `(False, msg)`
with three distinct messages (empty input, pattern mismatch, invalid
calendar date) or `(True, date_str)`. -/
inductive DateResult where
  | valid : DateResult
  | emptyInput : DateResult
  | patternMismatch : DateResult
  | invalidCalendarDate : DateResult
deriving DecidableEq

/-- Gregorian leap-year rule used by Python `datetime`. -/
def isLeapYear (y : Nat) : Bool :=
  y % 4 = 0 && (y % 100 ≠ 0 || y % 400 = 0)

/-- Days in a month of the (proleptic) Gregorian calendar used by Python
`datetime`. -/
def daysInMonth (y m : Nat) : Nat :=
  if m = 2 then (if isLeapYear y then 29 else 28)
  else if m = 4 ∨ m = 6 ∨ m = 9 ∨ m = 11 then 30
  else 31

/-- Embeds the `datetime(full_year, month, day)` constructor check of
`validate_date_format`: succeeds exactly when month and day are in range
(the year `2000 + yy` is always inside `datetime`'s 1..9999 year range). -/
def datetimeValid (y m d : Nat) : Bool :=
  1 ≤ m && m ≤ 12 && 1 ≤ d && d ≤ daysInMonth y m

/-- Numeric value of a digit character, as `int` applied to a digit. -/
def digitVal (c : Char) : Nat := c.toNat - '0'.toNat

/-- Value of a two-digit decimal string, as `int` applied to it. -/
def twoDigits (a b : Char) : Nat := 10 * digitVal a + digitVal b

/-- Embeds `validate_date_format` (`src/validation.py` lines 24-43):
empty check, then the regex `^\d{2}\.\d{2}\.\d{2}$`, then
`day, month, year = map(int, split('.'))` and the
`datetime(2000 + year, month, day)` validity check.  Python's `$` also
matches just before one newline that ends the string, and `int()` ignores
that trailing whitespace in the year piece, so the regex stage accepts
both the eight-character shape and the same shape followed by a single
trailing newline; the second match arm embeds that case. -/
def validate_date_format (date_str : String) : DateResult :=
  if date_str = "" then DateResult.emptyInput
  else
    match date_str.data with
    | [d1, d2, c1, m1, m2, c2, y1, y2] =>
      if d1.isDigit && d2.isDigit && c1 = '.' && m1.isDigit && m2.isDigit
          && c2 = '.' && y1.isDigit && y2.isDigit then
        if datetimeValid (2000 + twoDigits y1 y2) (twoDigits m1 m2) (twoDigits d1 d2)
        then DateResult.valid
        else DateResult.invalidCalendarDate
      else DateResult.patternMismatch
    | [d1, d2, c1, m1, m2, c2, y1, y2, nl] =>
      if nl = '\n' then
        if d1.isDigit && d2.isDigit && c1 = '.' && m1.isDigit && m2.isDigit
            && c2 = '.' && y1.isDigit && y2.isDigit then
          if datetimeValid (2000 + twoDigits y1 y2) (twoDigits m1 m2) (twoDigits d1 d2)
          then DateResult.valid
          else DateResult.invalidCalendarDate
        else DateResult.patternMismatch
      else DateResult.patternMismatch
    | _ => DateResult.patternMismatch

/-- Modelled from the spec: a string is a valid date exactly when it is
two digits, a period, two digits, a period, two digits, and the digits
form a valid calendar date in year `2000 + YY`. -/
def validDateSpec (s : String) : Prop :=
  ∃ d1 d2 m1 m2 y1 y2 : Char,
    s.data = [d1, d2, '.', m1, m2, '.', y1, y2] ∧
    d1.isDigit = true ∧ d2.isDigit = true ∧ m1.isDigit = true ∧
    m2.isDigit = true ∧ y1.isDigit = true ∧ y2.isDigit = true ∧
    datetimeValid (2000 + twoDigits y1 y2) (twoDigits m1 m2) (twoDigits d1 d2) = true

/-- Modelled from the amended claim: a valid date is two digits, a
period, two digits, a period, two digits — optionally followed by a
single trailing newline, which the source's regex `$` and `int()`
tolerate — whose digits form a valid calendar date in year `2000 + YY`. -/
def validDateSpecNL (s : String) : Prop :=
  ∃ d1 d2 m1 m2 y1 y2 : Char,
    (s.data = [d1, d2, '.', m1, m2, '.', y1, y2] ∨
     s.data = [d1, d2, '.', m1, m2, '.', y1, y2, '\n']) ∧
    d1.isDigit = true ∧ d2.isDigit = true ∧ m1.isDigit = true ∧
    m2.isDigit = true ∧ y1.isDigit = true ∧ y2.isDigit = true ∧
    datetimeValid (2000 + twoDigits y1 y2) (twoDigits m1 m2) (twoDigits d1 d2) = true

/-! ### Color validation (`src/validation.py`, lines 46-71) -/

/-- The fixed CSS color-name allow-list of `validate_color_format`. -/
def css_colors : List String :=
  ["black", "white", "red", "green", "blue", "yellow", "cyan", "magenta",
   "silver", "gray", "maroon", "olive", "lime", "aqua", "teal", "navy",
   "fuchsia", "purple", "orange", "brown", "pink", "gold"]

/-- ASCII hexadecimal digit, as accepted by Python `int(_, 16)`. -/
def isHexDigitChar (c : Char) : Bool :=
  c.isDigit || ('a' ≤ c && c ≤ 'f') || ('A' ≤ c && c ≤ 'F')

/-- Whitespace ignored by Python `int` around its argument. -/
def isPySpace (c : Char) : Bool :=
  c = ' ' || c = '\t' || c = '\n' || c = '\r' || c = '\x0b' || c = '\x0c'

/-- Continuation of a Python integer-literal digit run: single underscores
are allowed between hexadecimal digits, never trailing or doubled. -/
def hexRunRest : List Char → Bool
  | [] => true
  | '_' :: c :: r => isHexDigitChar c && hexRunRest r
  | ['_'] => false
  | c :: r => isHexDigitChar c && hexRunRest r

/-- Nonempty run of hexadecimal digits with optional single underscores
between digits. -/
def hexRun : List Char → Bool
  | [] => false
  | c :: r => isHexDigitChar c && hexRunRest r

/-- Embeds success of Python `int(s, 16)` (the `try` of
`validate_color_format`): surrounding whitespace, an optional sign, an
optional `0x`/`0X` prefix (an underscore may directly follow the prefix),
then a nonempty underscore-separated run of hexadecimal digits. -/
def pyIntBase16Ok (cs : List Char) : Bool :=
  let cs1 := cs.dropWhile isPySpace
  let cs2 := (cs1.reverse.dropWhile isPySpace).reverse
  let cs3 := match cs2 with
    | '+' :: r => r
    | '-' :: r => r
    | r => r
  match cs3 with
  | '0' :: c :: r =>
    if c = 'x' || c = 'X' then
      match r with
      | '_' :: r2 => hexRun r2
      | _ => hexRun r
    else hexRun ('0' :: c :: r)
  | r => hexRun r

/-- Embeds `validate_color_format` (`src/validation.py` lines 46-71) as its
acceptance boolean: empty strings are rejected; strings starting with `#`
are accepted when the full length is 4 or 7 and the digits parse in base
16; otherwise the lowercased string is looked up in `css_colors`. -/
def validate_color_format (color_str : String) : Bool :=
  if color_str = "" then false
  else
    match color_str.data with
    | '#' :: rest => (rest.length = 3 || rest.length = 6) && pyIntBase16Ok rest
    | _ => css_colors.any (fun t => t == String.mk (color_str.data.map Char.toLower))

/-- Modelled from the spec: valid colors are `#` followed by 3 or 6
characters that parse in base 16, or a case-insensitive member of the
CSS color-name allow-list. -/
def validColorSpec (s : String) : Prop :=
  (∃ rest : List Char, s.data = '#' :: rest ∧
    (rest.length = 3 ∨ rest.length = 6) ∧ pyIntBase16Ok rest = true) ∨
  String.mk (s.data.map Char.toLower) ∈ css_colors

/-! ### Sequential payload construction (`src/qr_core.py`, lines 102-126) -/

/-- Embeds the Python format expression `f"{i:08d}"` for a nonnegative
integer: the decimal digits of `i` left-padded with zeros to width 8. -/
def zfill8 (i : Nat) : String :=
  String.mk (List.replicate (8 - (toString i).length) '0' ++ (toString i).data)

/-- Embeds the payload expression of `create_qr_codes` manual mode
(`src/qr_core.py` lines 108-109):
`f"M-{valid_uses}-{serial}-{volume}-{end_date}-{security_code}-{suffix_code}"`
with `serial = f"{i:08d}"`. -/
def seqPayload (valid_uses volume end_date security_code suffix_code : String)
    (i : Nat) : String :=
  "M-" ++ valid_uses ++ "-" ++ zfill8 i ++ "-" ++ volume ++ "-" ++ end_date ++
    "-" ++ security_code ++ "-" ++ suffix_code

/-- Embeds the manual-mode loop `for i in range(1, count + 1)` of
`create_qr_codes` (`src/qr_core.py` lines 102-126) as the ordered list of
(index, payload) records it produces. -/
def seqRecords (valid_uses volume end_date security_code suffix_code : String)
    (count : Nat) : List (Nat × String) :=
  (List.range' 1 count).map
    (fun i => (i, seqPayload valid_uses volume end_date security_code suffix_code i))

/-! ### Tabular (CSV) payload extraction
(`src/qr_core.py` lines 64-75 and `src/mode_handlers.py` lines 179-213) -/

/-- Embeds the CSV branch of `create_qr_codes` (`src/qr_core.py` lines
64-75) as the list of payloads it generates: every row of `csv_data` in
order contributes `row[input_column]` when the row has more than
`input_column` columns, and is skipped (loop `continue`) otherwise. -/
def csvPayloads (csv_data : List (List String)) (input_column : Nat) : List String :=
  csv_data.filterMap (fun row => row.get? input_column)

/-- Outcome of `CSVModeHandler.execute_generation`: either an error message
(`raise ValueError`) or the count reported to the user together with the
payloads actually generated. -/
inductive CsvOutcome where
  | failure (msg : String) : CsvOutcome
  | success (reportedCount : Nat) (payloads : List String) : CsvOutcome
deriving DecidableEq

/-- Embeds the data flow of `CSVModeHandler.execute_generation`
(`src/mode_handlers.py` lines 186-213): reject an empty file; reject a
column index out of range of the header row; compute `qr_data_list` from
`csv_data[1:]` (rows with enough columns) and reject if it is empty; the
reported count is `len(qr_data_list)`, while generation is invoked as
`create_qr_codes(..., csv_data=csv_data, input_column=column_index)` on
the full row list, header row included (line 213). -/
def csvModeGeneration (csv_data : List (List String)) (column_index : Nat) :
    CsvOutcome :=
  match csv_data with
  | [] => CsvOutcome.failure ("CSV file is empty")
  | headers :: dataRows =>
    if headers.length ≤ column_index then
      CsvOutcome.failure ("Column index out of range")
    else
      let qr_data_list := dataRows.filterMap (fun row => row.get? column_index)
      if qr_data_list.isEmpty then
        CsvOutcome.failure ("No valid data found in the specified column")
      else
        CsvOutcome.success qr_data_list.length
          (csvPayloads (headers :: dataRows) column_index)

/-! ### Filename synthesis (`src/qr_core.py`, lines 15-34) -/

/-- Characters kept by the filename sanitizer: alphanumeric, space,
hyphen, underscore, period (`c.isalnum() or c in (' ', '-', '_', '.')`). -/
def keepChar (c : Char) : Bool :=
  c.isAlphanum || c = ' ' || c = '-' || c = '_' || c = '.'

/-- Embeds Python `rstrip('.')`: remove all trailing period characters. -/
def rstripDot (cs : List Char) : List Char :=
  (cs.reverse.dropWhile (fun c => c = '.')).reverse

/-- Embeds Python `"_".join(parts)` for the list of filename parts. -/
def joinUnderscore : List String → String
  | [] => ""
  | [p] => p
  | p :: rest => p ++ "_" ++ joinUnderscore rest

/-- Embeds `generate_custom_filename` (`src/qr_core.py` lines 15-34):
when the payload is used as base, filter it to the safe character set and
strip trailing periods, falling back to `qr_code_{index}` (or `qr_code`
when no index is given) if empty; then join nonempty prefix, base and
nonempty suffix with underscores.  The Python truthiness tests
`if prefix:` / `if suffix:` are nonemptiness tests on strings. -/
def generate_custom_filename (base_name pre suffix : String)
    (use_payload_as_base : Bool) (index : Option Nat) : String :=
  let fallback := match index with
    | some i => "qr_code_" ++ toString i
    | none => "qr_code"
  let safe_base :=
    if use_payload_as_base then
      let sb := String.mk (rstripDot (base_name.data.filter keepChar))
      if sb = "" then fallback else sb
    else fallback
  let parts : List String :=
    (if pre ≠ "" then [pre] else []) ++ [safe_base] ++
      (if suffix ≠ "" then [suffix] else [])
  joinUnderscore parts

/-- The unsafe characters that the specification says never appear in a
synthesized filename. -/
def unsafeChars : List Char := ['/', '?', '=', '&', ':']

/-! ### SVG colorization, structured-edit path (`src/qr_core.py`, lines 148-231)

`colorize_svg` reads and writes only each element's tag and `fill`
attribute, and `ElementTree`'s descendant search `root.findall(".//tag")`
enumerates the root's proper descendants in document order; a vector
artifact is therefore modelled as its root element together with the list
of its proper descendant elements in document order.  Attribute editing
never changes the tree shape, so this view is preserved by the edit. -/

/-- An XML element as the colorizer sees it: a (possibly namespaced) tag
and an attribute dictionary in insertion order with unique keys. -/
structure SvgElem where
  tag : String
  attrs : List (String × String)
deriving DecidableEq

/-- A parsed vector artifact: the root element's tag and attributes plus
the proper descendants of the root in document order (the elements that
`root.findall(".//...")` can return). -/
structure SvgDoc where
  rootTag : String
  rootAttrs : List (String × String)
  elems : List SvgElem
deriving DecidableEq

/-- Embeds `Element.set(key, value)` of `ElementTree`: replace the value
stored under `key`, or append the pair when the key is absent. -/
def setAttr (k v : String) : List (String × String) → List (String × String)
  | [] => [(k, v)]
  | (k2, v2) :: rest => if k2 = k then (k, v) :: rest else (k2, v2) :: setAttr k v rest

/-- Embeds `element.set("fill", c)`. -/
def SvgElem.setFill (c : String) (e : SvgElem) : SvgElem :=
  { e with attrs := setAttr ("fill") c e.attrs }

/-- The `fill` attribute of an element, if present. -/
def SvgElem.fill (e : SvgElem) : Option String :=
  (e.attrs.find? (fun p => p.1 = "fill")).map (fun p => p.2)

/-- The SVG namespace prefix that `ElementTree` puts on parsed tags. -/
def svgNS : String := "\x7bhttp://www.w3.org/2000/svg\x7d"

/-- Namespaced `path` tag. -/
def nsPathTag : String := svgNS ++ "path"

/-- Namespaced `rect` tag. -/
def nsRectTag : String := svgNS ++ "rect"

/-- Embeds the two-step lookup of `colorize_svg` (lines 182-184 for paths,
191-193 for rects): try the namespaced tag first, and only if that match
list is empty (`if not path_elements:`) try the bare tag; `none` means
neither lookup matched anything. -/
def chooseTag (es : List SvgElem) (nsTag bareTag : String) : Option String :=
  if es.any (fun e => e.tag = nsTag) then some nsTag
  else if es.any (fun e => e.tag = bareTag) then some bareTag
  else none

/-- Embeds the path-coloring loop (lines 186-188): every element of the
chosen path match list gets `fill = color`.  Elements with other tags are
untouched. -/
def colorPaths (pt : Option String) (color : String) (es : List SvgElem) :
    List SvgElem :=
  es.map (fun e => if pt = some e.tag then e.setFill color else e)

/-- Embeds the rect-coloring loop (lines 196-203): the elements of the
chosen rect match list are numbered in document order; number 0 gets
`fill = background_color` and every later one gets `fill = color`.  `cnt`
is the number of matched rects already seen. -/
def colorRects (rt : Option String) (color background_color : String) :
    List SvgElem → Nat → List SvgElem
  | [], _ => []
  | e :: es, cnt =>
    if rt = some e.tag then
      e.setFill (if cnt = 0 then background_color else color) ::
        colorRects rt color background_color es (cnt + 1)
    else
      e :: colorRects rt color background_color es cnt

/-- Embeds the structured-edit stage of `colorize_svg` (lines 174-231)
on a parsed artifact: color all matched paths, then all matched rects;
when neither shape matched anything (`modified` stays `False`, lines
205-211) the result is `none` and the caller falls back to the regex
substitution.  The serialization that follows (lines 214-231) rewrites
only decimal numeric literals and the document declaration, leaving every
fill attribute value as set here. -/
def colorizeStructured (color background_color : String) (doc : SvgDoc) :
    Option SvgDoc :=
  let pt := chooseTag doc.elems nsPathTag ("path")
  let rt := chooseTag doc.elems nsRectTag ("rect")
  if pt = none ∧ rt = none then none
  else some { doc with
    elems := colorRects rt color background_color (colorPaths pt color doc.elems) 0 }

/-- The match list of rect-shaped elements of a document, as the source's
`rect_elements` (namespaced lookup first, bare lookup second). -/
def matchedRects (doc : SvgDoc) : List SvgElem :=
  match chooseTag doc.elems nsRectTag ("rect") with
  | some t => doc.elems.filter (fun e => e.tag = t)
  | none => []

/-! ### Archiving (`src/file_utils.py`, lines 18-24) -/

/-- Embeds Python `str.endswith(suffix)`: the suffix test on character
lists. -/
def pyEndsWith (s suf : String) : Bool := suf.data.isSuffixOf s.data

/-- A directory tree: the files of the directory (in listing order) and
the named subdirectories. -/
inductive FsTree where
  | node (files : List String) (subdirs : List (String × FsTree)) : FsTree

mutual
/-- Embeds `os.walk(output_folder)` top-down as the list of
(directory path, file name) pairs it visits: the files of each directory
first, then the subdirectories recursively. -/
def walkTree (pathAcc : List String) : FsTree → List (List String × String)
  | FsTree.node files subdirs =>
    files.map (fun f => (pathAcc, f)) ++ walkSubs pathAcc subdirs
/-- Recursive walk over the subdirectory list. -/
def walkSubs (pathAcc : List String) : List (String × FsTree) →
    List (List String × String)
  | [] => []
  | (d, t) :: rest => walkTree (pathAcc ++ [d]) t ++ walkSubs pathAcc rest
end

mutual
/-- Embeds `zip_output_files` (`src/file_utils.py` lines 18-24) as the
list of archive entries it writes, in order: for every walked file whose
name ends with `.{format}`, an entry with the bare file name as archive
entry name (`arcname=file`) and `os.path.join(root, file)` as source
path. -/
def zipEntries (format : String) (pathAcc : List String) : FsTree →
    List (String × List String)
  | FsTree.node files subdirs =>
    (files.filter (fun f => pyEndsWith f ("." ++ format))).map
      (fun f => (f, pathAcc ++ [f])) ++ zipEntriesSubs format pathAcc subdirs
/-- Recursive archive-entry collection over the subdirectory list. -/
def zipEntriesSubs (format : String) (pathAcc : List String) :
    List (String × FsTree) → List (String × List String)
  | [] => []
  | (d, t) :: rest =>
    zipEntries format (pathAcc ++ [d]) t ++ zipEntriesSubs format pathAcc rest
end

/-- A folder with two subdirectories holding same-named vector files, used
to exhibit the archive-entry collision. -/
def collisionTree : FsTree :=
  FsTree.node []
    [("a", FsTree.node [("x.svg")] []), ("b", FsTree.node [("x.svg")] [])]

/-! ### SVG colorization, regex-fallback path (`src/qr_core.py`, lines
166-172, 205-211 and 233-243)

The fallback is `re.sub(r'fill="[^"]+"', f'fill="{color}"', svg_content)`:
a left-to-right nonoverlapping scan that, at each position, either matches
the literal `fill="`, a nonempty run of non-quote characters and a closing
quote — emitting `fill="{color}"` and resuming after the match — or emits
one character and moves on. -/

/-- The literal prefix `fill="` of the fallback regex. -/
def fillKey : List Char := ['f', 'i', 'l', 'l', '=', '"']

/-- Match of the fallback regex `fill="[^"]+"` at the start of the input:
on success, returns the matched value (the `[^"]+` group) and the input
remaining after the closing quote.  The greedy nonempty `[^"]+` followed
by `"` matches exactly when at least one non-quote character follows
`fill="` and a quote occurs after the run. -/
def headFillMatch (cs : List Char) : Option (List Char × List Char) :=
  if cs.take 6 = fillKey then
    match (cs.drop 6).dropWhile (fun c => c != '"') with
    | [] => none
    | _ :: rest =>
      let v := (cs.drop 6).takeWhile (fun c => c != '"')
      if v = [] then none else some (v, rest)
  else none

/-- Embeds `re.sub(r'fill="[^"]+"', f'fill="{color}"', _)` on character
lists: scan left to right; replace each nonoverlapping match with
`fill="{color}"`; copy a character and advance on failure. -/
def subFillAux (color : List Char) : List Char → List Char
  | [] => []
  | c :: cs =>
    match h : headFillMatch (c :: cs) with
    | some (_, rest) => fillKey ++ color ++ '"' :: subFillAux color rest
    | none => c :: subFillAux color cs
termination_by l => l.length
decreasing_by
  · have key : ∀ u v rest : List Char,
        headFillMatch u = some (v, rest) → rest.length < u.length := by
      intro u v rest hm
      simp only [headFillMatch] at hm
      split at hm
      · rename_i hTake
        split at hm
        · exact absurd hm (by simp)
        · rename_i heq
          split at hm
          · exact absurd hm (by simp)
          · simp only [Option.some.injEq, Prod.mk.injEq] at hm
            obtain ⟨hv, hr⟩ := hm
            subst hr
            have hlen := congrArg List.length
              (List.takeWhile_append_dropWhile (p := fun c => c != '"')
                (l := u.drop 6))
            rw [heq] at hlen
            have h6 : (u.take 6).length = fillKey.length := by rw [hTake]
            simp only [List.length_append, List.length_cons, List.length_drop,
              List.length_take, fillKey, List.length_cons, List.length_nil] at hlen h6
            omega
      · exact absurd hm (by simp)
    simpa using key _ _ _ h
  · simp

/-- The list of values matched by the fallback regex `fill="[^"]+"` in a
left-to-right nonoverlapping scan, used to state what the substitution
replaces. -/
def fillValuesAux : List Char → List (List Char)
  | [] => []
  | c :: cs =>
    match h : headFillMatch (c :: cs) with
    | some (v, rest) => v :: fillValuesAux rest
    | none => fillValuesAux cs
termination_by l => l.length
decreasing_by
  · have key : ∀ u v rest : List Char,
        headFillMatch u = some (v, rest) → rest.length < u.length := by
      intro u v rest hm
      simp only [headFillMatch] at hm
      split at hm
      · rename_i hTake
        split at hm
        · exact absurd hm (by simp)
        · rename_i heq
          split at hm
          · exact absurd hm (by simp)
          · simp only [Option.some.injEq, Prod.mk.injEq] at hm
            obtain ⟨hv, hr⟩ := hm
            subst hr
            have hlen := congrArg List.length
              (List.takeWhile_append_dropWhile (p := fun c => c != '"')
                (l := u.drop 6))
            rw [heq] at hlen
            have h6 : (u.take 6).length = fillKey.length := by rw [hTake]
            simp only [List.length_append, List.length_cons, List.length_drop,
              List.length_take, fillKey, List.length_cons, List.length_nil] at hlen h6
            omega
      · exact absurd hm (by simp)
    simpa using key _ _ _ h
  · simp

/-- The regex fallback substitution on strings. -/
def subFill (color : String) (s : String) : String :=
  String.mk (subFillAux color.data s.data)

/-- The fill-attribute values the fallback regex finds in a string. -/
def fillValues (s : String) : List String :=
  (fillValuesAux s.data).map String.mk

/-! ### SVG colorization, full control flow (`src/qr_core.py`, lines
148-243) -/

/-- The state of the artifact file as `colorize_svg` finds it: unreadable
(the `open` raises), readable but not parseable as XML (`ET.fromstring`
raises `ParseError`), or well-formed with its parsed element tree and its
raw text. -/
inductive SvgFile where
  | unreadable : SvgFile
  | malformed (raw : String) : SvgFile
  | wellFormed (doc : SvgDoc) (raw : String) : SvgFile

/-- What `colorize_svg` leaves on disk: the file untouched, the regex
fallback's text written back, or the edited tree serialized and written
back. -/
inductive ColorizeResult where
  | unchanged : ColorizeResult
  | fallbackWritten (content : String) : ColorizeResult
  | structuredWritten (doc : SvgDoc) : ColorizeResult
deriving DecidableEq

/-- Embeds the control flow of `colorize_svg` (`src/qr_core.py` lines
148-243).  An unreadable file makes the structured attempt raise; the
handler at lines 233-243 re-reads the file for the regex fallback, which
raises again and is caught at line 242, leaving the file unmodified.  A
parse failure (lines 166-172) and an element-less parse (lines 205-211)
both write the regex substitution of the original text.  Otherwise the
edited tree is serialized and written (lines 214-231).  The function is
total: every source branch ends in a caught exception or a write. -/
def colorize_svg (file : SvgFile) (color background_color : String) :
    ColorizeResult :=
  match file with
  | SvgFile.unreadable => ColorizeResult.unchanged
  | SvgFile.malformed raw => ColorizeResult.fallbackWritten (subFill color raw)
  | SvgFile.wellFormed doc raw =>
    match colorizeStructured color background_color doc with
    | none => ColorizeResult.fallbackWritten (subFill color raw)
    | some doc2 => ColorizeResult.structuredWritten doc2

/-! ### Concrete inputs used to instantiate the theorems -/

/-- A four-row CSV (header, two full data rows, one empty row) as
`CSVModeHandler.execute_generation` reads it. -/
def demoCsv : List (List String) :=
  [[("Name"), ("URL")], [("Google"), ("g")], [], [("GitHub"), ("gh")]]

/-- A rect-based vector artifact as `SvgFillImage` renders it: a
background rectangle followed by module rectangles. -/
def demoDoc : SvgDoc :=
  { rootTag := svgNS ++ "svg", rootAttrs := [],
    elems :=
      [ { tag := nsRectTag, attrs := [(("width"), ("100")), (("height"), ("100"))] },
        { tag := nsRectTag, attrs := [(("x"), ("10"))] },
        { tag := nsRectTag, attrs := [(("x"), ("20"))] } ] }

/-- The artifact `demoDoc` after structured colorization with foreground
`#000000` and background `#FFFFFF`. -/
def demoColored : SvgDoc :=
  { rootTag := svgNS ++ "svg", rootAttrs := [],
    elems :=
      [ { tag := nsRectTag,
          attrs := [(("width"), ("100")), (("height"), ("100")), (("fill"), ("#FFFFFF"))] },
        { tag := nsRectTag, attrs := [(("x"), ("10")), (("fill"), ("#000000"))] },
        { tag := nsRectTag, attrs := [(("x"), ("20")), (("fill"), ("#000000"))] } ] }

/-- A parsed artifact with no path and no rect elements, driving the
structured edit into the regex fallback. -/
def emptyDoc : SvgDoc :=
  { rootTag := svgNS ++ "svg", rootAttrs := [], elems := [] }

/-! ## Shared helper lemmas -/


/-- Rebuilding a string from its character list is the identity. -/
theorem stringMk_data (s : String) : String.mk s.data = s := by
  cases s
  rfl

/-- String concatenation concatenates the character lists. -/
theorem stringData_append (a b : String) : (a ++ b).data = a.data ++ b.data := rfl

/-! ## C10 — error-correction level resolution -/

/-- C10: the error-correction resolver is total (it always returns one of
the four encoder constants and never signals an error), maps `L`, `M`,
`Q`, `H` case-insensitively to the corresponding constant, and maps every
other string to the `L` constant. -/
theorem errorCorrectionResolverTotal (s : String) :
    (get_error_correction_level s = ERROR_CORRECT_L ∨
     get_error_correction_level s = ERROR_CORRECT_M ∨
     get_error_correction_level s = ERROR_CORRECT_Q ∨
     get_error_correction_level s = ERROR_CORRECT_H) ∧
    (String.mk (s.data.map Char.toUpper) = "L" →
      get_error_correction_level s = ERROR_CORRECT_L) ∧
    (String.mk (s.data.map Char.toUpper) = "M" →
      get_error_correction_level s = ERROR_CORRECT_M) ∧
    (String.mk (s.data.map Char.toUpper) = "Q" →
      get_error_correction_level s = ERROR_CORRECT_Q) ∧
    (String.mk (s.data.map Char.toUpper) = "H" →
      get_error_correction_level s = ERROR_CORRECT_H) ∧
    (String.mk (s.data.map Char.toUpper) ≠ "L" →
      String.mk (s.data.map Char.toUpper) ≠ "M" →
      String.mk (s.data.map Char.toUpper) ≠ "Q" →
      String.mk (s.data.map Char.toUpper) ≠ "H" →
      get_error_correction_level s = ERROR_CORRECT_L) := by
  by_cases hL : String.mk (s.data.map Char.toUpper) = "L" <;>
    by_cases hM : String.mk (s.data.map Char.toUpper) = "M" <;>
      by_cases hQ : String.mk (s.data.map Char.toUpper) = "Q" <;>
        by_cases hH : String.mk (s.data.map Char.toUpper) = "H" <;>
          simp [get_error_correction_level, hL, hM, hQ, hH]

/-- Witness for C10: `"q"` resolves to the Q constant and an invalid level
resolves to the L constant. -/
theorem errorCorrectionResolverTotalWitness :
    get_error_correction_level ("q") = ERROR_CORRECT_Q ∧
    get_error_correction_level ("invalid") = ERROR_CORRECT_L :=
  ⟨(errorCorrectionResolverTotal ("q")).2.2.2.1 (by decide),
   (errorCorrectionResolverTotal ("invalid")).2.2.2.2.2
     (by decide) (by decide) (by decide) (by decide)⟩

/-! ## C2 — tabular generation does not skip the header row -/

/-- C2 (code evaluation at the failing input): on a CSV with a header row,
two complete data rows and one empty row at column 0, the handler reports
a count of 2 (from `csv_data[1:]`), yet generation runs over the full row
list and produces three payloads, the header cell `Name` among them; the
empty row is skipped without aborting.  The claim requires exactly 2
payload records with none equal to the header cell. -/
theorem csvHeaderRowGenerated :
    csvModeGeneration demoCsv 0 =
      CsvOutcome.success 2 [("Name"), ("Google"), ("GitHub")] ∧
    (csvPayloads demoCsv 0).length = 2 + 1 ∧
    ("Name") ∈ csvPayloads demoCsv 0 := by
  refine ⟨by decide, by decide, by decide⟩

/-! ## C5 — filename synthesis -/

/-- C5 (counterexample): with an unsanitized prefix containing a slash the
synthesized filename contains a slash, refuting the claim that the final
name never contains one of the unsafe characters for every prefix. -/
theorem filenameUnsafePrefixCounterexample :
    generate_custom_filename ("x") ("a/b") ("") true (some 1) = ("a/b_x") ∧
    '/' ∈ (generate_custom_filename ("x") ("a/b") ("") true (some 1)).data := by
  refine ⟨by decide, by decide⟩

/-! ## C1 — sequential payload generation -/

/-- C1: for every parameter tuple and `count ≥ 1`, sequential generation
produces exactly `count` records, with indices `1..count` in strictly
increasing order, and the record at index `i` carries the payload
`M-{usageLimit}-{i zero-padded to 8 digits}-{volume}-{expiryDate}-{securityCode}-{suffixCode}`. -/
theorem sequentialPayloadsCorrect (u vol date sec suf : String) (count : Nat)
    (hcount : 1 ≤ count) :
    (seqRecords u vol date sec suf count).length = count ∧
    (seqRecords u vol date sec suf count).map Prod.fst = List.range' 1 count ∧
    List.Pairwise (· < ·) ((seqRecords u vol date sec suf count).map Prod.fst) ∧
    (∀ i : Nat, 1 ≤ i → i ≤ count →
      (seqRecords u vol date sec suf count).get? (i - 1) =
        some (i, "M-" ++ u ++ "-" ++
          String.mk (List.replicate (8 - (toString i).length) '0' ++ (toString i).data)
          ++ "-" ++ vol ++ "-" ++ date ++ "-" ++ sec ++ "-" ++ suf)) := by
  have hmap : (seqRecords u vol date sec suf count).map Prod.fst = List.range' 1 count := by
    simp [seqRecords, List.map_map, Function.comp_def]
  refine ⟨by simp [seqRecords], hmap, ?_, ?_⟩
  · rw [hmap]
    exact List.pairwise_lt_range' 1 count
  · intro i h1 h2
    have hlt : i - 1 < count := by omega
    simp only [seqRecords, List.get?_map, List.get?_range' 1 1 hlt]
    have : 1 + 1 * (i - 1) = i := by omega
    rw [this]
    simp [seqPayload, zfill8]

/-- Witness for C1: three sequential payloads at the documented parameters. -/
theorem sequentialPayloadsCorrectWitness :
    (seqRecords ("15") ("500") ("26.12.31") ("SECD") ("23FF45EE") 3).get? (2 - 1) =
      some (2, "M-" ++ ("15") ++ "-" ++
        String.mk (List.replicate (8 - (toString 2).length) '0' ++ (toString 2).data)
        ++ "-" ++ ("500") ++ "-" ++ ("26.12.31") ++ "-" ++ ("SECD") ++ "-" ++ ("23FF45EE")) :=
  (sequentialPayloadsCorrect ("15") ("500") ("26.12.31") ("SECD") ("23FF45EE") 3
    (by decide)).2.2.2 2 (by decide) (by decide)

/-! ## C6 — date validation -/

/-- C6 (counterexample): the source accepts `"26.12.31\n"` — Python's
`$` matches before the single trailing newline and `int()` strips it —
yet that string is not of the claimed two-digits, period, two-digits,
period, two-digits shape, so validation does not accept exactly the
strings of that shape. -/
theorem dateTrailingNewlineCounterexample :
    validate_date_format ("26.12.31\n") = DateResult.valid ∧
    ¬ validDateSpec ("26.12.31\n") := by
  constructor
  · decide
  · rintro ⟨d1, d2, m1, m2, y1, y2, hdata, -⟩
    have h9 : ("26.12.31\n").data.length = 9 := rfl
    rw [hdata] at h9
    simp at h9

/-- C6 (amended): date validation accepts exactly the strings of shape
two-digits, period, two-digits, period, two-digits — optionally followed
by one trailing newline — forming a valid calendar date in year
`2000+YY`; the five documented examples behave as stated (`26.12.31`
valid, `32.12.31` invalid calendar date, `2024-12-31` pattern mismatch,
`29.02.00` valid since 2000 is a leap year, `29.02.01` invalid calendar
date). -/
theorem dateValidationAmended :
    (∀ s : String, validate_date_format s = DateResult.valid ↔ validDateSpecNL s) ∧
    validate_date_format ("26.12.31") = DateResult.valid ∧
    validate_date_format ("32.12.31") = DateResult.invalidCalendarDate ∧
    validate_date_format ("2024-12-31") = DateResult.patternMismatch ∧
    validate_date_format ("29.02.00") = DateResult.valid ∧
    validate_date_format ("29.02.01") = DateResult.invalidCalendarDate := by
  refine ⟨?_, by decide, by decide, by decide, by decide, by decide⟩
  intro s
  constructor
  · intro h
    unfold validate_date_format at h
    split at h
    · exact absurd h (by decide)
    · split at h
      · rename_i d1 d2 c1 m1 m2 c2 y1 y2 hdata
        split at h
        · rename_i hcond
          split at h
          · rename_i hdt
            simp only [Bool.and_eq_true, decide_eq_true_eq] at hcond
            obtain ⟨⟨⟨⟨⟨⟨⟨h1, h2⟩, h3⟩, h4⟩, h5⟩, h6⟩, h7⟩, h8⟩ := hcond
            refine ⟨d1, d2, m1, m2, y1, y2, Or.inl ?_, h1, h2, h4, h5, h7, h8, hdt⟩
            rw [hdata, h3, h6]
          · exact absurd h (by decide)
        · exact absurd h (by decide)
      · rename_i d1 d2 c1 m1 m2 c2 y1 y2 nl hdata
        split at h
        · rename_i hnl
          split at h
          · rename_i hcond
            split at h
            · rename_i hdt
              simp only [Bool.and_eq_true, decide_eq_true_eq] at hcond
              obtain ⟨⟨⟨⟨⟨⟨⟨h1, h2⟩, h3⟩, h4⟩, h5⟩, h6⟩, h7⟩, h8⟩ := hcond
              refine ⟨d1, d2, m1, m2, y1, y2, Or.inr ?_, h1, h2, h4, h5, h7, h8, hdt⟩
              rw [hdata, h3, h6, hnl]
            · exact absurd h (by decide)
          · exact absurd h (by decide)
        · exact absurd h (by decide)
      · exact absurd h (by decide)
  · rintro ⟨d1, d2, m1, m2, y1, y2, hdata | hdata, h1, h2, h4, h5, h7, h8, hdt⟩
    · have hs : s ≠ "" := by
        intro he
        rw [he] at hdata
        have h0 : ("" : String).data = [] := rfl
        rw [h0] at hdata
        simp at hdata
      unfold validate_date_format
      rw [if_neg hs]
      simp [hdata, h1, h2, h4, h5, h7, h8, hdt]
    · have hs : s ≠ "" := by
        intro he
        rw [he] at hdata
        have h0 : ("" : String).data = [] := rfl
        rw [h0] at hdata
        simp at hdata
      unfold validate_date_format
      rw [if_neg hs]
      simp [hdata, h1, h2, h4, h5, h7, h8, hdt]

/-! ## C7 — color validation -/

/-- No CSS color name of the allow-list starts with a hash character. -/
theorem cssColorsNoHash (l : List Char) : String.mk ('#' :: l) ∉ css_colors := by
  intro h
  simp only [css_colors, List.mem_cons, List.not_mem_nil, or_false] at h
  rcases h with h | h | h | h | h | h | h | h | h | h | h |
    h | h | h | h | h | h | h | h | h | h | h <;>
    · have := congrArg String.data h
      simp at this

/-- C7: color validation accepts a string exactly when it is `#` followed
by 3 or 6 characters that parse in base 16, or a case-insensitive member
of the CSS color-name allow-list; the six documented examples behave as
stated. -/
theorem colorValidationCorrect :
    (∀ s : String, validate_color_format s = true ↔ validColorSpec s) ∧
    validate_color_format ("#FFF") = true ∧
    validate_color_format ("#1a2b3c") = true ∧
    validate_color_format ("Red") = true ∧
    validate_color_format ("#GGG") = false ∧
    validate_color_format ("notacolor") = false ∧
    validate_color_format ("") = false := by
  refine ⟨?_, by decide, by decide, by decide, by decide, by decide, by decide⟩
  intro s
  unfold validate_color_format validColorSpec
  split
  · rename_i hs
    subst hs
    have h0 : ("" : String).data = [] := rfl
    constructor
    · intro h
      exact absurd h (by decide)
    · rintro (⟨rest, hdata, _⟩ | hcss)
      · rw [h0] at hdata
        simp at hdata
      · rw [h0] at hcss
        exact absurd hcss (by decide)
  · rename_i hs
    split
    · rename_i rest heq
      constructor
      · intro h
        simp only [Bool.and_eq_true, Bool.or_eq_true, decide_eq_true_eq] at h
        exact Or.inl ⟨rest, heq, h.1, h.2⟩
      · rintro (⟨rest2, hdata2, hlen, hpy⟩ | hcss)
        · rw [heq] at hdata2
          obtain ⟨rfl⟩ : rest = rest2 := by
            injection hdata2
          simp only [Bool.and_eq_true, Bool.or_eq_true, decide_eq_true_eq]
          exact ⟨hlen, hpy⟩
        · exfalso
          rw [heq] at hcss
          have hlow : ('#' :: rest).map Char.toLower = '#' :: rest.map Char.toLower := by
            simp
          rw [hlow] at hcss
          exact cssColorsNoHash _ hcss
    · rename_i hnothash
      have hany : (css_colors.any (fun t => t == String.mk (s.data.map Char.toLower)) = true)
          ↔ String.mk (s.data.map Char.toLower) ∈ css_colors := by
        simp [List.any_eq_true, beq_iff_eq]
      constructor
      · intro h
        exact Or.inr (hany.mp h)
      · rintro (⟨rest2, hdata2, _⟩ | hcss)
        · exact absurd hdata2 (hnothash rest2)
        · exact hany.mpr hcss

/-! ## C9 — archiving -/

mutual
/-- The archive entry list is the suffix-filtered walk, with the bare file
name as entry name and the joined path as source. -/
theorem zipEntries_eq_filter_walk (fmt : String) (p : List String) (t : FsTree) :
    zipEntries fmt p t =
      ((walkTree p t).filter (fun e => pyEndsWith e.2 ("." ++ fmt))).map
        (fun e => (e.2, e.1 ++ [e.2])) := by
  cases t with
  | node files subdirs =>
    rw [zipEntries, walkTree, List.filter_append, List.map_append,
      zipEntriesSubs_eq_filter_walk]
    congr 1
    rw [List.filter_map, List.map_map]
    rfl
/-- The archive entry list over a subdirectory list is the suffix-filtered
walk of the subdirectories. -/
theorem zipEntriesSubs_eq_filter_walk (fmt : String) (p : List String)
    (l : List (String × FsTree)) :
    zipEntriesSubs fmt p l =
      ((walkSubs p l).filter (fun e => pyEndsWith e.2 ("." ++ fmt))).map
        (fun e => (e.2, e.1 ++ [e.2])) := by
  cases l with
  | nil => rfl
  | cons dt rest =>
    rw [zipEntriesSubs, walkSubs, List.filter_append, List.map_append,
      zipEntries_eq_filter_walk, zipEntriesSubs_eq_filter_walk]
end

/-- C9: archiving walks the folder recursively and adds exactly the files
whose name ends in `.{format}`, with the bare file name (not the path) as
entry name; in particular same-named files in different subdirectories
yield colliding entry names, as the concrete two-directory tree shows. -/
theorem archiveEntriesCorrect (fmt : String) (t : FsTree) :
    zipEntries fmt [] t =
      ((walkTree [] t).filter (fun e => pyEndsWith e.2 ("." ++ fmt))).map
        (fun e => (e.2, e.1 ++ [e.2])) ∧
    (∀ (p : List String) (f : String), (p, f) ∈ walkTree [] t →
      ((f, p ++ [f]) ∈ zipEntries fmt [] t ↔ pyEndsWith f ("." ++ fmt) = true)) ∧
    (zipEntries ("svg") [] collisionTree).map Prod.fst = [("x.svg"), ("x.svg")] := by
  refine ⟨zipEntries_eq_filter_walk fmt [] t, ?_,
    by simp [zipEntries, zipEntriesSubs, collisionTree, pyEndsWith]⟩
  intro p f hw
  rw [zipEntries_eq_filter_walk fmt [] t]
  constructor
  · intro hmem
    simp only [List.mem_map, List.mem_filter] at hmem
    obtain ⟨⟨p2, f2⟩, ⟨_, hsuf⟩, heq⟩ := hmem
    have hf : f2 = f := congrArg Prod.fst heq
    rw [hf] at hsuf
    exact hsuf
  · intro hsuf
    exact List.mem_map_of_mem _ (List.mem_filter.mpr ⟨hw, hsuf⟩)

/-- Witness for C9: a file of the collision tree is in the archive exactly
when its name carries the `.svg` suffix. -/
theorem archiveEntriesCorrectWitness :
    ("x.svg", ["a"] ++ [("x.svg")]) ∈ zipEntries ("svg") [] collisionTree ↔
      pyEndsWith ("x.svg") ("." ++ "svg") = true :=
  (archiveEntriesCorrect ("svg") collisionTree).2.1 ["a"] ("x.svg")
    (by simp [walkTree, walkSubs, collisionTree])

/-! ## C5 — filename synthesis (amended) -/

/-- Characters surviving `dropWhile` were in the original list. -/
theorem mem_of_mem_dropWhile {p : Char → Bool} {c : Char} :
    ∀ {l : List Char}, c ∈ l.dropWhile p → c ∈ l := by
  intro l h
  induction l with
  | nil => simpa using h
  | cons x xs ih =>
    rw [List.dropWhile_cons] at h
    split at h
    · exact List.mem_cons_of_mem x (ih h)
    · exact h

/-- Characters of the trailing-period strip were in the original list. -/
theorem mem_of_mem_rstripDot {c : Char} {cs : List Char} (h : c ∈ rstripDot cs) :
    c ∈ cs := by
  unfold rstripDot at h
  rw [List.mem_reverse] at h
  have := mem_of_mem_dropWhile h
  rwa [List.mem_reverse] at this

/-- Characters of a joined filename come from the separator or a part. -/
theorem mem_joinUnderscore {c : Char} :
    ∀ parts : List String, c ∈ (joinUnderscore parts).data →
      c = '_' ∨ ∃ p ∈ parts, c ∈ p.data
  | [], h => by
    have h0 : ("" : String).data = [] := rfl
    rw [joinUnderscore, h0] at h
    simp at h
  | [p], h => Or.inr ⟨p, by simp, by rwa [joinUnderscore] at h⟩
  | p :: q :: rest, h => by
    have hju : joinUnderscore (p :: q :: rest) = p ++ "_" ++ joinUnderscore (q :: rest) := rfl
    rw [hju] at h
    rw [stringData_append, stringData_append, List.mem_append, List.mem_append] at h
    rcases h with (hp | hu) | hrest
    · exact Or.inr ⟨p, by simp, hp⟩
    · left
      have h0 : ("_" : String).data = ['_'] := rfl
      rw [h0] at hu
      simpa using hu
    · rcases mem_joinUnderscore (q :: rest) hrest with h1 | ⟨r, hr, hcr⟩
      · exact Or.inl h1
      · exact Or.inr ⟨r, List.mem_cons_of_mem p hr, hcr⟩

/-- Every character of a natural number's decimal representation is a
digit. -/
theorem toString_nat_isDigit (i : Nat) : ∀ c ∈ (toString i).data, c.isDigit = true := by
  have hdc : ∀ k, k < 10 → (Nat.digitChar k).isDigit = true := by decide
  have hcore : ∀ (fuel n : Nat) (acc : List Char),
      (∀ c ∈ acc, c.isDigit = true) →
      ∀ c ∈ Nat.toDigitsCore 10 fuel n acc, c.isDigit = true := by
    intro fuel
    induction fuel with
    | zero => intro n acc hacc; simpa [Nat.toDigitsCore] using hacc
    | succ fuel ih =>
      intro n acc hacc c hc
      rw [Nat.toDigitsCore] at hc
      have hmod : (Nat.digitChar (n % 10)).isDigit = true :=
        hdc (n % 10) (Nat.mod_lt _ (by norm_num))
      have hacc2 : ∀ x ∈ Nat.digitChar (n % 10) :: acc, x.isDigit = true := by
        intro x hx
        rcases List.mem_cons.mp hx with rfl | hx2
        · exact hmod
        · exact hacc x hx2
      split at hc
      · exact hacc2 c hc
      · exact ih _ _ hacc2 c hc
  have hdata : (toString i).data = Nat.toDigitsCore 10 (i + 1) i [] := rfl
  rw [hdata]
  exact hcore (i + 1) i [] (by simp)

/-- Kept filename characters are never in the unsafe set. -/
theorem keepChar_not_unsafe {c : Char} (h : keepChar c = true) : c ∉ unsafeChars := by
  intro hm
  fin_cases hm <;> revert h <;> decide

/-- Digit characters are never in the unsafe set. -/
theorem isDigit_not_unsafe {c : Char} (h : c.isDigit = true) : c ∉ unsafeChars := by
  intro hm
  fin_cases hm <;> revert h <;> decide

/-- C5 (amended): filename synthesis with the payload as base sanitizes
the payload exactly as claimed (keep alphanumeric, space, hyphen,
underscore, period; strip trailing periods; fall back to
`qr_code_{index}` when empty) and joins non-empty prefix, base and
non-empty suffix with underscores omitting empty parts; the result
contains none of `/`, `?`, `=`, `&`, `:` provided the prefix and suffix
contain none of them (the source does not sanitize prefix and suffix). -/
theorem filenameSynthesisAmended (payload pre suffix : String) (i : Nat)
    (hp : ∀ c ∈ pre.data, c ∉ unsafeChars)
    (hs : ∀ c ∈ suffix.data, c ∉ unsafeChars) :
    generate_custom_filename payload pre suffix true (some i) =
      joinUnderscore ((if pre ≠ "" then [pre] else []) ++
        [(if String.mk (rstripDot (payload.data.filter keepChar)) = ""
          then "qr_code_" ++ toString i
          else String.mk (rstripDot (payload.data.filter keepChar)))] ++
        (if suffix ≠ "" then [suffix] else [])) ∧
    (∀ c ∈ (generate_custom_filename payload pre suffix true (some i)).data,
      c ∉ unsafeChars) := by
  refine ⟨rfl, ?_⟩
  intro c hc
  have hrw : generate_custom_filename payload pre suffix true (some i) =
      joinUnderscore ((if pre ≠ "" then [pre] else []) ++
        [(if String.mk (rstripDot (payload.data.filter keepChar)) = ""
          then "qr_code_" ++ toString i
          else String.mk (rstripDot (payload.data.filter keepChar)))] ++
        (if suffix ≠ "" then [suffix] else [])) := rfl
  rw [hrw] at hc
  rcases mem_joinUnderscore _ hc with rfl | ⟨p, hpmem, hcp⟩
  · decide
  · rw [List.mem_append, List.mem_append] at hpmem
    rcases hpmem with (hpre | hbase) | hsuf
    · have hpp : p = pre := by
        split at hpre
        · simpa using hpre
        · simp at hpre
      subst hpp
      exact hp c hcp
    · have hb : p = (if String.mk (rstripDot (payload.data.filter keepChar)) = ""
          then "qr_code_" ++ toString i
          else String.mk (rstripDot (payload.data.filter keepChar))) := by
        simpa using hbase
      subst hb
      split at hcp
      · rw [stringData_append, List.mem_append] at hcp
        rcases hcp with hq | hd
        · have hqr : ∀ x ∈ ("qr_code_" : String).data, x ∉ unsafeChars := by decide
          exact hqr c hq
        · exact isDigit_not_unsafe (toString_nat_isDigit i c hd)
      · have hcp2 : c ∈ rstripDot (payload.data.filter keepChar) := hcp
        have hcf : c ∈ payload.data.filter keepChar := mem_of_mem_rstripDot hcp2
        exact keepChar_not_unsafe (List.mem_filter.mp hcf).2
    · have hps : p = suffix := by
        split at hsuf
        · simpa using hsuf
        · simp at hsuf
      subst hps
      exact hs c hcp

/-- Witness for C5 (amended): instantiated at payload `a/b?c`, prefix `p`,
suffix `s`, index 1; the character `a` of the result is not unsafe. -/
theorem filenameSynthesisAmendedWitness : 'a' ∉ unsafeChars :=
  (filenameSynthesisAmended ("a/b?c") ("p") ("s") 1
    (by decide) (by decide)).2 'a' (by decide)

/-! ## SVG structured-edit lemmas (for C3 and C8) -/

/-- Setting an attribute stores exactly the new value under the key. -/
theorem find_setAttr (k v : String) (attrs : List (String × String)) :
    (setAttr k v attrs).find? (fun p => p.1 = k) = some (k, v) := by
  induction attrs with
  | nil => simp [setAttr, List.find?]
  | cons kv rest ih =>
    obtain ⟨k2, v2⟩ := kv
    rw [setAttr]
    split
    · simp [List.find?]
    · rename_i hne
      have hd : (decide (k2 = k)) = false := by simpa using hne
      rw [List.find?, hd]
      exact ih

/-- Setting the fill makes the fill attribute the new value. -/
theorem setFill_fill (e : SvgElem) (c : String) : (e.setFill c).fill = some c := by
  unfold SvgElem.fill SvgElem.setFill
  rw [find_setAttr]
  rfl

/-- Setting the fill preserves the tag. -/
theorem setFill_tag (e : SvgElem) (c : String) : (e.setFill c).tag = e.tag := rfl

/-- Setting an attribute twice to the same value equals setting it once. -/
theorem setAttr_idem (k v : String) (attrs : List (String × String)) :
    setAttr k v (setAttr k v attrs) = setAttr k v attrs := by
  induction attrs with
  | nil => simp [setAttr]
  | cons kv rest ih =>
    obtain ⟨k2, v2⟩ := kv
    rw [setAttr]
    split
    · rw [setAttr, if_pos rfl]
    · rename_i hne
      rw [setAttr, if_neg hne, ih]

/-- Setting the fill twice to the same color equals setting it once. -/
theorem setFill_idem (e : SvgElem) (c : String) :
    (e.setFill c).setFill c = e.setFill c := by
  unfold SvgElem.setFill
  simp [setAttr_idem]

/-- The path-coloring pass preserves the tag list. -/
theorem colorPaths_map_tag (pt : Option String) (c : String) (es : List SvgElem) :
    (colorPaths pt c es).map SvgElem.tag = es.map SvgElem.tag := by
  induction es with
  | nil => rfl
  | cons e es ih =>
    simp only [colorPaths, List.map_cons] at ih ⊢
    rw [ih]
    congr 1
    split <;> rfl

/-- The rect-coloring pass preserves the tag list. -/
theorem colorRects_map_tag (rt : Option String) (c b : String) :
    ∀ (es : List SvgElem) (cnt : Nat),
      (colorRects rt c b es cnt).map SvgElem.tag = es.map SvgElem.tag := by
  intro es
  induction es with
  | nil => intro cnt; rfl
  | cons e es ih =>
    intro cnt
    rw [colorRects]
    split <;> simp [List.map_cons, ih, setFill_tag]

/-- Tag search factors through the tag list. -/
theorem any_tag_eq_map (l : List SvgElem) (t : String) :
    l.any (fun e => e.tag = t) = (l.map SvgElem.tag).any (fun x => x = t) := by
  induction l with
  | nil => rfl
  | cons e es ih => simp [List.any_cons, ih]

/-- Shape lookup depends only on the tag list. -/
theorem chooseTag_congr {es es2 : List SvgElem}
    (h : es.map SvgElem.tag = es2.map SvgElem.tag) (ns b : String) :
    chooseTag es ns b = chooseTag es2 ns b := by
  have h1 : ∀ t : String, es.any (fun e => e.tag = t) = es2.any (fun e => e.tag = t) := by
    intro t
    rw [any_tag_eq_map, any_tag_eq_map, h]
  unfold chooseTag
  rw [h1 ns, h1 b]

/-- Shape lookup returns nothing, the namespaced tag, or the bare tag. -/
theorem chooseTag_cases (es : List SvgElem) (ns b : String) :
    chooseTag es ns b = none ∨ chooseTag es ns b = some ns ∨
      chooseTag es ns b = some b := by
  unfold chooseTag
  split
  · exact Or.inr (Or.inl rfl)
  · split
    · exact Or.inr (Or.inr rfl)
    · exact Or.inl rfl

/-- A successful shape lookup means some element carries the chosen tag. -/
theorem chooseTag_some_any {es : List SvgElem} {ns b t : String}
    (h : chooseTag es ns b = some t) : es.any (fun e => e.tag = t) = true := by
  unfold chooseTag at h
  split at h
  · rename_i h1
    cases h
    exact h1
  · split at h
    · rename_i h2
      cases h
      exact h2
    · cases h

/-- A tag carried by some element makes the tag filter nonempty. -/
theorem filter_tag_ne_nil_of_any {es : List SvgElem} {t : String}
    (h : es.any (fun e => e.tag = t) = true) :
    es.filter (fun e => e.tag = t) ≠ [] := by
  rw [List.any_eq_true] at h
  obtain ⟨e, hmem, het⟩ := h
  intro hnil
  have hm : e ∈ es.filter (fun e => e.tag = t) := List.mem_filter.mpr ⟨hmem, het⟩
  rw [hnil] at hm
  simp at hm

/-- The length of the tag filter depends only on the tag list. -/
theorem filter_tag_length_congr {es es2 : List SvgElem}
    (h : es.map SvgElem.tag = es2.map SvgElem.tag) (t : String) :
    (es.filter (fun e => e.tag = t)).length =
      (es2.filter (fun e => e.tag = t)).length := by
  have h1 : ∀ l : List SvgElem,
      (l.filter (fun e => e.tag = t)).length =
        ((l.map SvgElem.tag).filter (fun x => x = t)).length := by
    intro l
    rw [← List.countP_eq_length_filter, ← List.countP_eq_length_filter,
      List.countP_map]
    rfl
  rw [h1, h1, h]

/-- Rect coloring with a positive counter paints every matched rect with
the foreground color. -/
theorem colorRects_filter_fills_pos (t c b : String) :
    ∀ (es : List SvgElem) (cnt : Nat), cnt ≠ 0 →
      ((colorRects (some t) c b es cnt).filter (fun e => e.tag = t)).map SvgElem.fill =
        List.replicate (es.filter (fun e => e.tag = t)).length (some c) := by
  intro es
  induction es with
  | nil => intro cnt h; simp [colorRects]
  | cons e es ih =>
    intro cnt hcnt
    rw [colorRects]
    split
    · rename_i hrt
      have het : e.tag = t := (Option.some.inj hrt).symm
      rw [List.filter_cons, if_pos (by simp [setFill_tag, het]),
        List.filter_cons, if_pos (by simp [het])]
      simp only [List.map_cons, List.length_cons, List.replicate_succ]
      rw [setFill_fill, ih (cnt + 1) (by omega)]
    · rename_i hrt
      have het : ¬ e.tag = t := fun hh => hrt (by rw [hh])
      rw [List.filter_cons, if_neg (by simpa using het),
        List.filter_cons, if_neg (by simpa using het)]
      exact ih cnt hcnt

/-- Rect coloring from counter zero paints the first matched rect with
the background color and every later matched rect with the foreground
color. -/
theorem colorRects_filter_fills_zero (t c b : String) :
    ∀ es : List SvgElem, es.filter (fun e => e.tag = t) ≠ [] →
      ((colorRects (some t) c b es 0).filter (fun e => e.tag = t)).map SvgElem.fill =
        some b ::
          List.replicate ((es.filter (fun e => e.tag = t)).length - 1) (some c) := by
  intro es
  induction es with
  | nil => intro h; simp at h
  | cons e es ih =>
    intro hne
    rw [colorRects]
    split
    · rename_i hrt
      have het : e.tag = t := (Option.some.inj hrt).symm
      rw [List.filter_cons, if_pos (by simp [setFill_tag, het]),
        List.filter_cons, if_pos (by simp [het])]
      simp only [List.map_cons, List.length_cons, Nat.add_sub_cancel]
      rw [setFill_fill, colorRects_filter_fills_pos t c b es 1 (by omega)]
      rw [if_pos (by simp [het])]
      simp
    · rename_i hrt
      have het : ¬ e.tag = t := fun hh => hrt (by rw [hh])
      rw [List.filter_cons, if_neg (by simpa using het)]
      rw [List.filter_cons, if_neg (by simpa using het)] at hne ⊢
      exact ih hne

/-! ## C3 — rect colorization -/

/-- C3: on a parsed artifact with at least one matched rectangle element,
the structured edit succeeds and assigns the background color to the
first matched rectangle and the foreground color to every subsequent
one; consequently every matched rectangle other than the first carries
the foreground color, and when the two colors differ the background
color appears on exactly one rectangle element. -/
theorem rectColorizationCorrect (doc : SvgDoc) (color background_color t : String)
    (hrect : chooseTag doc.elems nsRectTag ("rect") = some t) :
    ∃ doc2 : SvgDoc, colorizeStructured color background_color doc = some doc2 ∧
      chooseTag doc2.elems nsRectTag ("rect") = some t ∧
      (doc2.elems.filter (fun e => e.tag = t)).map SvgElem.fill =
        some background_color ::
          List.replicate ((doc.elems.filter (fun e => e.tag = t)).length - 1)
            (some color) ∧
      (∀ f ∈ ((doc2.elems.filter (fun e => e.tag = t)).map SvgElem.fill).tail,
        f = some color) ∧
      (color ≠ background_color →
        ((doc2.elems.filter (fun e => e.tag = t)).map SvgElem.fill).count
          (some background_color) = 1) := by
  obtain ⟨D, hstep, hDe⟩ : ∃ D : SvgDoc, colorizeStructured color background_color doc = some D ∧ D.elems = colorRects (some t) color background_color (colorPaths (chooseTag doc.elems nsPathTag ("path")) color doc.elems) 0 := by
    unfold colorizeStructured
    rw [hrect, if_neg (by rintro ⟨-, h2⟩; cases h2)]
    exact ⟨_, rfl, rfl⟩
  have hfilterlen : ((colorPaths (chooseTag doc.elems nsPathTag ("path")) color doc.elems).filter (fun e => e.tag = t)).length = (doc.elems.filter (fun e => e.tag = t)).length :=
    filter_tag_length_congr (colorPaths_map_tag _ _ _) t
  have hne : (colorPaths (chooseTag doc.elems nsPathTag ("path")) color doc.elems).filter (fun e => e.tag = t) ≠ [] := by
    have h1 : doc.elems.filter (fun e => e.tag = t) ≠ [] :=
      filter_tag_ne_nil_of_any (chooseTag_some_any hrect)
    intro h0
    apply h1
    have h2 := hfilterlen
    rw [h0] at h2
    simpa [List.length_eq_zero] using h2.symm
  have hfills := colorRects_filter_fills_zero t color background_color (colorPaths (chooseTag doc.elems nsPathTag ("path")) color doc.elems) hne
  rw [hfilterlen] at hfills
  rw [← hDe] at hfills
  have htags : D.elems.map SvgElem.tag = doc.elems.map SvgElem.tag := by
    rw [hDe, colorRects_map_tag, colorPaths_map_tag]
  refine ⟨D, hstep, ?_, hfills, ?_, ?_⟩
  · rw [chooseTag_congr htags]
    exact hrect
  · rw [hfills]
    intro f hf
    exact List.eq_of_mem_replicate hf
  · intro hneq
    rw [hfills]
    rw [List.count_cons_self, List.count_replicate]
    rw [if_neg (fun h => hneq (Option.some.inj (eq_of_beq h)))]

/-- Witness for C3: the three-rectangle artifact `demoDoc` colorized with
distinct foreground and background colors. -/
theorem rectColorizationCorrectWitness :
    colorizeStructured ("#000000") ("#FFFFFF") demoDoc = some demoColored ∧
    (demoColored.elems.filter (fun e => e.tag = nsRectTag)).map SvgElem.fill =
      some ("#FFFFFF") ::
        List.replicate ((demoDoc.elems.filter (fun e => e.tag = nsRectTag)).length - 1)
          (some ("#000000")) ∧
    ((demoColored.elems.filter (fun e => e.tag = nsRectTag)).map SvgElem.fill).count
      (some ("#FFFFFF")) = 1 := by
  obtain ⟨d, h1, h2, h3, h4, h5⟩ :=
    rectColorizationCorrect demoDoc ("#000000") ("#FFFFFF") nsRectTag (by decide)
  have hco : colorizeStructured ("#000000") ("#FFFFFF") demoDoc = some demoColored := by
    decide
  rw [h1] at hco
  have hd : d = demoColored := Option.some.inj hco
  subst hd
  exact ⟨h1, h3, h5 (by decide)⟩

/-! ## C8 — idempotence of the structured edit -/

/-- The tag of a possibly path-colored element is unchanged. -/
theorem colorPaths_head_tag (pt : Option String) (c : String) (e : SvgElem) :
    (if pt = some e.tag then e.setFill c else e).tag = e.tag := by
  split <;> rfl

/-- One path-coloring step is idempotent on a single element. -/
theorem pathStep_idem (pt : Option String) (c : String) (x : SvgElem) :
    (if pt = some (if pt = some x.tag then x.setFill c else x).tag then (if pt = some x.tag then x.setFill c else x).setFill c else (if pt = some x.tag then x.setFill c else x)) = (if pt = some x.tag then x.setFill c else x) := by
  by_cases hpt : pt = some x.tag
  · rw [if_pos hpt, if_pos (by rw [setFill_tag]; exact hpt), setFill_idem]
  · rw [if_neg hpt, if_neg hpt]

/-- Coloring paths twice with the same color equals coloring once. -/
theorem colorPaths_idem (pt : Option String) (c : String) (es : List SvgElem) :
    colorPaths pt c (colorPaths pt c es) = colorPaths pt c es := by
  induction es with
  | nil => rfl
  | cons e es ih =>
    simp only [colorPaths, List.map_cons] at ih ⊢
    rw [ih, pathStep_idem]

/-- Coloring rects twice from the same counter equals coloring once. -/
theorem colorRects_idem (rt : Option String) (c b : String) :
    ∀ (es : List SvgElem) (cnt : Nat),
      colorRects rt c b (colorRects rt c b es cnt) cnt = colorRects rt c b es cnt := by
  intro es
  induction es with
  | nil => intro cnt; rfl
  | cons e es ih =>
    intro cnt
    rw [colorRects]
    split
    · rename_i hrt
      rw [colorRects, if_pos (by rw [setFill_tag]; exact hrt), setFill_idem, ih]
    · rename_i hrt
      rw [colorRects, if_neg hrt, ih]

/-- With disjoint chosen tags, path coloring commutes past rect
coloring. -/
theorem colorPaths_colorRects_comm (pt rt : Option String) (c b : String)
    (hd : ∀ u : String, pt = some u → rt = some u → False) :
    ∀ (es : List SvgElem) (cnt : Nat),
      colorPaths pt c (colorRects rt c b es cnt) =
        colorRects rt c b (colorPaths pt c es) cnt := by
  intro es
  induction es with
  | nil => intro cnt; rfl
  | cons e es ih =>
    intro cnt
    rw [colorRects]
    split
    · rename_i hrt
      have hpt : ¬ pt = some e.tag := fun hp => hd e.tag hp hrt
      have hR : colorRects rt c b (colorPaths pt c (e :: es)) cnt = SvgElem.setFill (if cnt = 0 then b else c) e :: colorRects rt c b (colorPaths pt c es) (cnt + 1) := by
        simp only [colorPaths, List.map_cons]
        rw [if_neg hpt]
        rw [colorRects, if_pos hrt]
      rw [hR]
      simp only [colorPaths, List.map_cons]
      rw [if_neg (by rw [setFill_tag]; exact hpt)]
      exact congrArg (fun l => SvgElem.setFill (if cnt = 0 then b else c) e :: l) (ih (cnt + 1))
    · rename_i hrt
      have hR : colorRects rt c b (colorPaths pt c (e :: es)) cnt = (if pt = some e.tag then e.setFill c else e) :: colorRects rt c b (colorPaths pt c es) cnt := by
        simp only [colorPaths, List.map_cons]
        rw [colorRects, if_neg (by rw [colorPaths_head_tag]; exact hrt)]
      rw [hR]
      simp only [colorPaths, List.map_cons]
      exact congrArg (fun l => (if pt = some e.tag then e.setFill c else e) :: l) (ih cnt)

/-- The chosen path tag and the chosen rect tag are never equal: the four
candidate tags are pairwise distinct strings. -/
theorem chosenTagsDisjoint (es : List SvgElem) :
    ∀ u : String, chooseTag es nsPathTag ("path") = some u →
      chooseTag es nsRectTag ("rect") = some u → False := by
  intro u h1 h2
  have d1 : nsPathTag ≠ nsRectTag := by decide
  have d2 : nsPathTag ≠ ("rect") := by decide
  have d3 : ("path") ≠ nsRectTag := by decide
  have d4 : ("path") ≠ ("rect") := by decide
  rcases chooseTag_cases es nsPathTag ("path") with hc | hc | hc <;>
    rcases chooseTag_cases es nsRectTag ("rect") with hc2 | hc2 | hc2 <;>
      rw [hc] at h1 <;> rw [hc2] at h2 <;> simp_all

/-- C8: re-running the structured colorization on an already-colorized
artifact with the same foreground and background colors returns the same
artifact, so every element's fill attribute value is identical after the
second run. -/
theorem colorizeStructuredIdempotent (doc doc2 : SvgDoc)
    (color background_color : String)
    (h : colorizeStructured color background_color doc = some doc2) :
    colorizeStructured color background_color doc2 = some doc2 := by
  simp only [colorizeStructured] at h
  split at h
  · cases h
  · rename_i hcond
    have hD := Option.some.inj h
    have hElems : doc2.elems = colorRects (chooseTag doc.elems nsRectTag ("rect")) color background_color (colorPaths (chooseTag doc.elems nsPathTag ("path")) color doc.elems) 0 := by
      rw [← hD]
    have htags : doc2.elems.map SvgElem.tag = doc.elems.map SvgElem.tag := by
      rw [hElems, colorRects_map_tag, colorPaths_map_tag]
    have hpt : chooseTag doc2.elems nsPathTag ("path") = chooseTag doc.elems nsPathTag ("path") :=
      chooseTag_congr htags _ _
    have hrt : chooseTag doc2.elems nsRectTag ("rect") = chooseTag doc.elems nsRectTag ("rect") :=
      chooseTag_congr htags _ _
    simp only [colorizeStructured]
    rw [hpt, hrt, if_neg hcond]
    have hfix : colorRects (chooseTag doc.elems nsRectTag ("rect")) color background_color (colorPaths (chooseTag doc.elems nsPathTag ("path")) color doc2.elems) 0 = doc2.elems := by
      rw [hElems]
      rw [colorPaths_colorRects_comm _ _ _ _ (chosenTagsDisjoint doc.elems) _ 0]
      rw [colorPaths_idem, colorRects_idem]
    rw [hfix]

/-- Witness for C8: re-colorizing the already-colorized demo artifact
yields it unchanged. -/
theorem colorizeStructuredIdempotentWitness :
    colorizeStructured ("#000000") ("#FFFFFF") demoColored = some demoColored :=
  colorizeStructuredIdempotent demoDoc demoColored ("#000000") ("#FFFFFF") (by decide)

/-! ## Regex-fallback lemmas (for C4) -/

/-- The head element surviving `dropWhile` fails the predicate. -/
theorem dropWhile_cons_head {p : Char → Bool} :
    ∀ {l : List Char} {q : Char} {t : List Char},
      l.dropWhile p = q :: t → p q = false := by
  intro l
  induction l with
  | nil => intro q t h; cases h
  | cons x xs ih =>
    intro q t h
    rw [List.dropWhile_cons] at h
    split at h
    · exact ih h
    · rename_i hpx
      injection h with h1 h2
      subst h1
      simpa using hpx

/-- Elements of `takeWhile` satisfy the predicate. -/
theorem mem_takeWhile_pred {p : Char → Bool} :
    ∀ {l : List Char} {x : Char}, x ∈ l.takeWhile p → p x = true := by
  intro l
  induction l with
  | nil => intro x h; simp at h
  | cons y ys ih =>
    intro x h
    rw [List.takeWhile_cons] at h
    split at h
    · rename_i hpy
      rcases List.mem_cons.mp h with rfl | h2
      · exact hpy
      · exact ih h2
    · simp at h

/-- Splitting a list whose first block satisfies the predicate and whose
pivot fails it. -/
theorem takeWhile_dropWhile_append {p : Char → Bool} (v : List Char)
    (hv : ∀ x ∈ v, p x = true) (y : Char) (hy : p y = false) (ys : List Char) :
    (v ++ y :: ys).takeWhile p = v ∧ (v ++ y :: ys).dropWhile p = y :: ys := by
  induction v with
  | nil =>
    constructor
    · rw [List.nil_append, List.takeWhile_cons, hy]
      simp
    · rw [List.nil_append, List.dropWhile_cons, hy]
      simp
  | cons x xs ih =>
    have hx : p x = true := hv x (by simp)
    obtain ⟨ih1, ih2⟩ := ih (fun z hz => hv z (by simp [hz]))
    constructor
    · rw [List.cons_append, List.takeWhile_cons, hx]
      simp [ih1]
    · rw [List.cons_append, List.dropWhile_cons, hx]
      simp [ih2]

/-- Decomposition of a successful head match: the input is the literal
key, a nonempty quote-free value and the closing quote before the rest. -/
theorem headFillMatch_some_shape {cs v rest : List Char}
    (h : headFillMatch cs = some (v, rest)) :
    cs = fillKey ++ (v ++ '"' :: rest) ∧ v ≠ [] ∧ ∀ x ∈ v, (x != '"') = true := by
  simp only [headFillMatch] at h
  split at h
  · rename_i hTake
    split at h
    · cases h
    · rename_i q rest1 heq
      split at h
      · cases h
      · rename_i hv
        simp only [Option.some.injEq, Prod.mk.injEq] at h
        obtain ⟨h1, h2⟩ := h
        subst h1
        subst h2
        have hq0 : (q != '"') = false :=
          dropWhile_cons_head (p := fun c => c != '"') heq
        have hq : q = '"' := by simpa using hq0
        subst hq
        refine ⟨?_, hv, fun x hx =>
          mem_takeWhile_pred (p := fun c => c != '"') hx⟩
        have hsplit := List.takeWhile_append_dropWhile
          (p := fun c => c != '"') (l := cs.drop 6)
        rw [heq] at hsplit
        conv_lhs => rw [← List.take_append_drop 6 cs, hTake, ← hsplit]
  · cases h

/-- A successful head match needs at least two quote characters. -/
theorem headFillMatch_two_quotes {cs v rest : List Char}
    (h : headFillMatch cs = some (v, rest)) : 2 ≤ cs.count '"' := by
  obtain ⟨hshape, -, -⟩ := headFillMatch_some_shape h
  rw [hshape, List.count_append, List.count_append, List.count_cons_self]
  have h1 : fillKey.count '"' = 1 := rfl
  omega

/-- Unfolding of the substitution at a matching head. -/
theorem subFillAux_cons_some (color : List Char) {c : Char} {cs v rest : List Char}
    (hm : headFillMatch (c :: cs) = some (v, rest)) :
    subFillAux color (c :: cs) = fillKey ++ (color ++ '"' :: subFillAux color rest) := by
  rw [subFillAux]
  split
  · rename_i v2 rest2 heq
    rw [hm] at heq
    simp only [Option.some.injEq, Prod.mk.injEq] at heq
    obtain ⟨-, h2⟩ := heq
    rw [h2, List.append_assoc]
  · rename_i heq
    rw [hm] at heq
    cases heq

/-- Unfolding of the substitution at a non-matching head. -/
theorem subFillAux_cons_none (color : List Char) {c : Char} {cs : List Char}
    (hm : headFillMatch (c :: cs) = none) :
    subFillAux color (c :: cs) = c :: subFillAux color cs := by
  rw [subFillAux]
  split
  · rename_i v2 rest2 heq
    rw [hm] at heq
    cases heq
  · rfl

/-- Unfolding of the match-value scan at a matching head. -/
theorem fillValuesAux_cons_some {c : Char} {cs v rest : List Char}
    (hm : headFillMatch (c :: cs) = some (v, rest)) :
    fillValuesAux (c :: cs) = v :: fillValuesAux rest := by
  rw [fillValuesAux]
  split
  · rename_i v2 rest2 heq
    rw [hm] at heq
    simp only [Option.some.injEq, Prod.mk.injEq] at heq
    obtain ⟨h1, h2⟩ := heq
    rw [h1, h2]
  · rename_i heq
    rw [hm] at heq
    cases heq

/-- Unfolding of the match-value scan at a non-matching head. -/
theorem fillValuesAux_cons_none {c : Char} {cs : List Char}
    (hm : headFillMatch (c :: cs) = none) :
    fillValuesAux (c :: cs) = fillValuesAux cs := by
  rw [fillValuesAux]
  split
  · rename_i v2 rest2 heq
    rw [hm] at heq
    cases heq
  · rfl

/-- The substitution maps the empty input to the empty output. -/
theorem subFillAux_nil (color : List Char) : subFillAux color [] = [] := by
  rw [subFillAux]

/-- The scan finds no matches in the empty input. -/
theorem fillValuesAux_nil : fillValuesAux [] = [] := by
  rw [fillValuesAux]

/-- Taking at most six characters of the key block ignores the tail. -/
theorem take_append_le_six {k : Nat} (hk : k ≤ 6) (b : List Char) :
    (fillKey ++ b).take k = fillKey.take k := by
  rw [List.take_append_eq_append_take]
  have h6 : fillKey.length = 6 := rfl
  rw [h6, show k - 6 = 0 by omega]
  simp

/-- The substitution preserves the first six characters of the input. -/
theorem subFillAux_take (color : List Char) :
    ∀ (n : Nat) (cs : List Char), cs.length ≤ n →
      ∀ k, k ≤ 6 → (subFillAux color cs).take k = cs.take k := by
  intro n
  induction n with
  | zero =>
    intro cs hlen k hk
    have h0 : cs = [] := List.length_eq_zero.mp (by omega)
    subst h0
    rw [subFillAux_nil]
  | succ n ih =>
    intro cs hlen k hk
    cases cs with
    | nil => rw [subFillAux_nil]
    | cons c cs2 =>
      cases hm : headFillMatch (c :: cs2) with
      | some vr =>
        obtain ⟨v, rest⟩ := vr
        obtain ⟨hshape, hvne, hvq⟩ := headFillMatch_some_shape hm
        rw [subFillAux_cons_some color hm, hshape,
          take_append_le_six hk, take_append_le_six hk]
      | none =>
        rw [subFillAux_cons_none color hm]
        cases k with
        | zero => rfl
        | succ k2 =>
          have hlen2 : cs2.length ≤ n := by
            simp only [List.length_cons] at hlen
            omega
          rw [List.take_succ_cons, List.take_succ_cons, ih cs2 hlen2 k2 (by omega)]

/-- The substitution leaves a string with at most one quote unchanged. -/
theorem subFillAux_count_le_one (color : List Char) :
    ∀ cs : List Char, cs.count '"' ≤ 1 → subFillAux color cs = cs := by
  intro cs
  induction cs with
  | nil => intro h; rw [subFillAux_nil]
  | cons c cs2 ih =>
    intro h
    cases hm : headFillMatch (c :: cs2) with
    | some vr =>
      exfalso
      obtain ⟨v, rest⟩ := vr
      have h2 := headFillMatch_two_quotes hm
      omega
    | none =>
      have hle : cs2.count '"' ≤ (c :: cs2).count '"' := by
        by_cases hc : c = '"'
        · simp [List.count_cons, hc]
        · simp [List.count_cons, hc]
      rw [subFillAux_cons_none color hm, ih (by omega)]

/-- A head that is not `f` can never start a match. -/
theorem headFillMatch_none_of_head {x : Char} (hx : x ≠ 'f') (l : List Char) :
    headFillMatch (x :: l) = none := by
  unfold headFillMatch
  rw [if_neg ?_]
  rw [List.take_succ_cons]
  intro heq
  have h1 : x = 'f' := by injection heq
  exact hx h1

/-- The substitution passes over an `f`-free block verbatim. -/
theorem subFillAux_append_f_free (color : List Char) :
    ∀ (xs : List Char), (∀ x ∈ xs, x ≠ 'f') → ∀ ys : List Char,
      subFillAux color (xs ++ ys) = xs ++ subFillAux color ys := by
  intro xs
  induction xs with
  | nil => intro h ys; rfl
  | cons x xs2 ih =>
    intro hxs ys
    have hx : x ≠ 'f' := hxs x (by simp)
    rw [List.cons_append,
      subFillAux_cons_none color (headFillMatch_none_of_head hx (xs2 ++ ys)),
      ih (fun y hy => hxs y (by simp [hy])) ys]
    rfl

/-- The replacement block itself matches at its head, yielding exactly
the color as value. -/
theorem headFillMatch_repl (color : List Char) (hc : color ≠ [])
    (hq : ∀ x ∈ color, (x != '"') = true) (t : List Char) :
    headFillMatch (fillKey ++ (color ++ '"' :: t)) = some (color, t) := by
  have htake : (fillKey ++ (color ++ '"' :: t)).take 6 = fillKey := by
    rw [show (6 : Nat) = fillKey.length from rfl, List.take_left]
  have hdrop : (fillKey ++ (color ++ '"' :: t)).drop 6 = color ++ '"' :: t := by
    rw [show (6 : Nat) = fillKey.length from rfl, List.drop_left]
  obtain ⟨htw, hdw⟩ := takeWhile_dropWhile_append (p := fun c => c != '"')
    color hq '"' (by decide) t
  unfold headFillMatch
  rw [if_pos htake, hdrop, hdw, htw]
  show (if color = [] then none else some (color, t)) = some (color, t)
  rw [if_neg hc]

/-- A failed head match stays failed after the substitution rewrites the
tail. -/
theorem headFillMatch_none_stable (color : List Char)
    {c : Char} {cs : List Char} (hm : headFillMatch (c :: cs) = none) :
    headFillMatch (c :: subFillAux color cs) = none := by
  by_cases h6 : (c :: cs).take 6 = fillKey
  · have hcf : c = 'f' := by
      rw [List.take_succ_cons] at h6
      injection h6
    have hsplit : fillKey ++ (c :: cs).drop 6 = c :: cs := by
      conv_rhs => rw [← List.take_append_drop 6 (c :: cs), h6]
    cases hdw : ((c :: cs).drop 6).dropWhile (fun x => x != '"') with
    | nil =>
      have hall : ∀ x ∈ (c :: cs).drop 6, (x != '"') = true :=
        List.dropWhile_eq_nil_iff.mp hdw
      have hcount : (c :: cs).count '"' = 1 := by
        rw [← hsplit, List.count_append]
        have h1 : fillKey.count '"' = 1 := rfl
        have h2 : ((c :: cs).drop 6).count '"' = 0 := by
          rw [List.count_eq_zero]
          intro hmem
          have hx := hall '"' hmem
          simp at hx
        omega
      have hcs : cs.count '"' ≤ 1 := by
        subst hcf
        rw [List.count_cons] at hcount
        simp at hcount
        omega
      rw [subFillAux_count_le_one color cs hcs]
      exact hm
    | cons q rest1 =>
      have hq0 : (fun x => x != '"') q = false :=
        dropWhile_cons_head (p := fun x => x != '"') hdw
      have hq : q = '"' := by simpa using hq0
      subst hq
      have htw : ((c :: cs).drop 6).takeWhile (fun x => x != '"') = [] := by
        by_cases hv : ((c :: cs).drop 6).takeWhile (fun x => x != '"') = []
        · exact hv
        · exfalso
          simp only [headFillMatch, if_pos h6, hdw] at hm
          rw [if_neg hv] at hm
          cases hm
      have hdrop : (c :: cs).drop 6 = '"' :: rest1 := by
        have hsp := List.takeWhile_append_dropWhile
          (p := fun x => x != '"') (l := (c :: cs).drop 6)
        rw [htw, hdw] at hsp
        rw [← hsp]
        rfl
      have hcs2 : cs = ['i', 'l', 'l', '=', '"', '"'] ++ rest1 := by
        have hsh : c :: cs = fillKey ++ '"' :: rest1 := by
          rw [← hsplit, hdrop]
        injection hsh with h1 h2
      subst hcf
      rw [hcs2, subFillAux_append_f_free color _ (by decide) rest1]
      rfl
  · have ht5 : (subFillAux color cs).take 5 = cs.take 5 :=
      subFillAux_take color cs.length cs (le_refl _) 5 (by omega)
    have ht6 : (c :: subFillAux color cs).take 6 = (c :: cs).take 6 := by
      rw [List.take_succ_cons, List.take_succ_cons, ht5]
    unfold headFillMatch
    rw [if_neg (by rw [ht6]; exact h6)]

/-- The fallback substitution replaces every matched fill value with the
color: the output's match values are exactly as many copies of the
color as the input had matches. -/
theorem fillValuesAux_subFillAux (color : List Char) (hc : color ≠ [])
    (hq : ∀ x ∈ color, (x != '"') = true) :
    ∀ (n : Nat) (cs : List Char), cs.length ≤ n →
      fillValuesAux (subFillAux color cs) =
        List.replicate (fillValuesAux cs).length color := by
  intro n
  induction n with
  | zero =>
    intro cs hlen
    have h0 : cs = [] := List.length_eq_zero.mp (by omega)
    subst h0
    rw [subFillAux_nil, fillValuesAux_nil]
    rfl
  | succ n ih =>
    intro cs hlen
    cases cs with
    | nil =>
      rw [subFillAux_nil, fillValuesAux_nil]
      rfl
    | cons c cs2 =>
      cases hm : headFillMatch (c :: cs2) with
      | some vr =>
        obtain ⟨v, rest⟩ := vr
        obtain ⟨hshape, hvne, hvq⟩ := headFillMatch_some_shape hm
        rw [subFillAux_cons_some color hm, fillValuesAux_cons_some hm]
        have hrepl := headFillMatch_repl color hc hq (subFillAux color rest)
        have hform : fillKey ++ (color ++ '"' :: subFillAux color rest) =
            'f' :: (['i', 'l', 'l', '=', '"'] ++ (color ++ '"' :: subFillAux color rest)) := rfl
        rw [hform] at hrepl ⊢
        rw [fillValuesAux_cons_some hrepl]
        have hrlen : rest.length ≤ n := by
          have hlsh := congrArg List.length hshape
          simp only [List.length_cons, List.length_append] at hlsh hlen
          have hfk : fillKey.length = 6 := rfl
          omega
        rw [ih rest hrlen]
        simp [List.replicate_succ]
      | none =>
        rw [subFillAux_cons_none color hm, fillValuesAux_cons_none hm,
          fillValuesAux_cons_none (headFillMatch_none_stable color hm)]
        have hlen2 : cs2.length ≤ n := by
          simp only [List.length_cons] at hlen
          omega
        exact ih cs2 hlen2

/-! ## C4 — the colorizer never raises and degrades to the regex fallback -/

/-- C4: colorization is total over every file state (an unreadable file is
left unmodified with the failure only logged), readable content that
fails XML parsing or yields no path/rect match is written back with every
`fill="..."` occurrence replaced by the foreground color: the regex
substitution is written in the first two cases, and its output carries
the foreground color on every match the input had. -/
theorem colorizeNeverRaises :
    (∀ raw color background_color : String,
      colorize_svg (SvgFile.malformed raw) color background_color =
        ColorizeResult.fallbackWritten (subFill color raw)) ∧
    (∀ (doc : SvgDoc) (raw color background_color : String),
      chooseTag doc.elems nsPathTag ("path") = none →
      chooseTag doc.elems nsRectTag ("rect") = none →
      colorize_svg (SvgFile.wellFormed doc raw) color background_color =
        ColorizeResult.fallbackWritten (subFill color raw)) ∧
    (∀ color background_color : String,
      colorize_svg SvgFile.unreadable color background_color =
        ColorizeResult.unchanged) ∧
    (∀ color raw : String, color ≠ "" → '"' ∉ color.data →
      fillValues (subFill color raw) =
        List.replicate (fillValues raw).length color) := by
  refine ⟨fun raw color bg => rfl, ?_, fun color bg => rfl, ?_⟩
  · intro doc raw color bg hp hr
    have hnone : colorizeStructured color bg doc = none := by
      simp only [colorizeStructured]
      rw [hp, hr]
      rw [if_pos ⟨rfl, rfl⟩]
    simp only [colorize_svg, hnone]
  · intro color raw hc hq
    have hq2 : ∀ x ∈ color.data, (x != '"') = true := by
      intro x hx
      have hne : x ≠ '"' := fun he => hq (he ▸ hx)
      simpa using hne
    have hc2 : color.data ≠ [] := by
      intro h0
      apply hc
      rw [← stringMk_data color, h0]
    have hmain := fillValuesAux_subFillAux color.data hc2 hq2
      raw.data.length raw.data (le_refl _)
    unfold fillValues subFill
    rw [show (String.mk (subFillAux color.data raw.data)).data =
      subFillAux color.data raw.data from rfl]
    rw [hmain, List.map_replicate, stringMk_data, List.length_map]

/-- Witness for C4: the element-less artifact falls back to the regex
path, and the substitution on a concrete malformed artifact yields the
foreground color on its single match. -/
theorem colorizeNeverRaisesWitness :
    colorize_svg (SvgFile.wellFormed emptyDoc ("<svg></svg>")) ("#000000") ("#FFFFFF") =
      ColorizeResult.fallbackWritten (subFill ("#000000") ("<svg></svg>")) ∧
    fillValues (subFill ("#000000") ("<p fill=\"red\"/>")) =
      List.replicate (fillValues ("<p fill=\"red\"/>")).length ("#000000") :=
  ⟨colorizeNeverRaises.2.1 emptyDoc ("<svg></svg>") ("#000000") ("#FFFFFF")
      (by decide) (by decide),
   colorizeNeverRaises.2.2.2 ("#000000") ("<p fill=\"red\"/>")
      (by decide) (by decide)⟩
